import Mathlib

/-!
Verification of the mealbot grocery-aggregation and nutrition-validation core.

This file is a shallow embedding of `src/mealbot/grocery/aggregator.py`,
`src/mealbot/planner/nutrition.py` and the data model of
`src/mealbot/models.py` into Lean, followed by theorems settling the
specification claims about that code.

Modelling conventions:
* Python `float` values are modelled as `ℚ` (exact arithmetic; the code
  performs only field operations on them).
* Python `int` is modelled as `ℤ`.
* Python strings are modelled as Lean `String`; `str.lower()` is modelled
  per-character with `Char.toLower` (faithful on ASCII), `str.strip()` drops
  leading/trailing whitespace characters, `a in b` is contiguous-substring
  containment, and string comparison is code-point lexicographic, modelled
  by an explicit recursive comparison on the character lists.
* `ZeroDivisionError` (the only exception reachable in the embedded code,
  raised by `slot.portions / recipe.servings` when `servings == 0`) is
  modelled with `Except String`.
* A Python `dict` used as an insertion-ordered accumulator is modelled as an
  association list to which new keys are appended at the end.
-/

namespace Mealbot

/-! ## Python string primitives -/

/-- Code-point comparison of two characters (Python compares strings by
Unicode code points). -/
def charLt (a b : Char) : Bool := decide (a.toNat < b.toNat)

/-- Lexicographic code-point comparison of character lists: the model of
Python string `<`. -/
def strLt : List Char → List Char → Bool
  | [], [] => false
  | [], _ :: _ => true
  | _ :: _, [] => false
  | a :: as, b :: bs =>
    if charLt a b then true
    else if charLt b a then false
    else strLt as bs

/-- Model of Python `str.lower()` (faithful on ASCII data, which is all the
code compares after normalization). -/
def pyLower (s : String) : String := ⟨s.toList.map Char.toLower⟩

/-- Model of Python `str.strip()`: drop leading and trailing whitespace. -/
def pyStrip (s : String) : String :=
  ⟨((s.toList.dropWhile Char.isWhitespace).reverse.dropWhile
      Char.isWhitespace).reverse⟩

/-- Model of Python `a in b` on strings: `a` occurs in `b` as a contiguous
substring. -/
def pySubstrOf (a b : String) : Bool := decide (a.toList <:+: b.toList)

/-! ## Data model (`src/mealbot/models.py`) -/

/-- Embeds `Macros` dataclass: nutritional macros per portion. -/
structure Macros where
  calories : ℤ
  protein_g : ℚ
  carbs_g : ℚ
  fat_g : ℚ

/-- Embeds `Ingredient` dataclass. -/
structure Ingredient where
  name : String
  quantity : ℚ
  unit : String
  category : String

/-- Embeds `Recipe` dataclass (fields not used by the embedded functions are kept
for faithfulness). -/
structure Recipe where
  id : String
  name : String
  servings : ℤ
  prep_time_min : ℤ
  ingredients : List Ingredient
  instructions : List String
  tags : List String
  macros : Option Macros
  season : List String
  storage_days : ℤ
  reheatable : Bool

/-- Embeds `MealSlot` dataclass. -/
structure MealSlot where
  day : String
  meal_type : String
  recipe_id : String
  portions : ℤ

/-- Embeds `MealPlan` dataclass. -/
structure MealPlan where
  week : String
  slots : List MealSlot
  prep_order : List String
  total_prep_time_min : ℤ

/-! ## Grocery aggregation (`src/mealbot/grocery/aggregator.py`) -/

/-- Embeds `IngredientCategory` enum. -/
inductive IngredientCategory where
  | legumes
  | fruits
  | proteines
  | epicerie
  | frais
  | surgeles
  | boissons
  | autre
deriving DecidableEq

/-- The `.value` string of each `IngredientCategory` member. -/
def IngredientCategory.value : IngredientCategory → String
  | .legumes => "legumes"
  | .fruits => "fruits"
  | .proteines => "proteines"
  | .epicerie => "epicerie"
  | .frais => "frais"
  | .surgeles => "surgeles"
  | .boissons => "boissons"
  | .autre => "autre"

/-- Embeds `PANTRY_STAPLES`: a Python `set` of strings; only membership is ever
used, so a list is a faithful model. -/
def PANTRY_STAPLES : List String :=
  ["sel", "poivre", "huile d\x27olive", "huile", "vinaigre", "sucre",
   "farine", "eau", "poivre noir", "sel fin", "gros sel"]

/-- Embeds `CATEGORY_MAPPING`: category string → enum member. -/
def CATEGORY_MAPPING : List (String × IngredientCategory) :=
  [("legumes", .legumes), ("légumes", .legumes),
   ("fruits", .fruits),
   ("proteines", .proteines), ("protéines", .proteines),
   ("viande", .proteines), ("poisson", .proteines),
   ("epicerie", .epicerie), ("épicerie", .epicerie), ("base", .epicerie),
   ("frais", .frais),
   ("surgeles", .surgeles), ("surgelés", .surgeles),
   ("boissons", .boissons)]

/-- Embeds `GroceryListItem` dataclass. -/
structure GroceryListItem where
  ingredient_name : String
  total_quantity : ℚ
  unit : String
  category : IngredientCategory
  coop_product_name : Option String
  coop_product_url : Option String
  coop_price : Option ℚ

/-- Embeds `GroceryList` dataclass. -/
structure GroceryList where
  items : List GroceryListItem

/-- Embeds `GroceryList.total_items` property. -/
def GroceryList.total_items (gl : GroceryList) : ℕ := gl.items.length

/-- One step of `GroceryList.by_category`: place one item into the bucket of
its category, appending a new bucket at the end when the category has not
been seen (Python dict insertion order). -/
def byCatStep :
    List (IngredientCategory × List GroceryListItem) → GroceryListItem →
      List (IngredientCategory × List GroceryListItem)
  | [], item => [(item.category, [item])]
  | (k, b) :: rest, item =>
    if k = item.category then (k, b ++ [item]) :: rest
    else (k, b) :: byCatStep rest item

/-- Embeds `GroceryList.by_category`: group the stored items by category, in
insertion order, preserving item order inside each bucket. -/
def GroceryList.by_category (gl : GroceryList) :
    List (IngredientCategory × List GroceryListItem) :=
  gl.items.foldl byCatStep []

/-- Read the bucket of a category out of the grouping (`[]` when the
category never occurs, matching a missing dict key). -/
def bucketOf :
    List (IngredientCategory × List GroceryListItem) → IngredientCategory →
      List GroceryListItem
  | [], _ => []
  | (k, b) :: rest, c => if k = c then b else bucketOf rest c

/-- Embeds `_normalize_ingredient_name`: `name.lower().strip()`. -/
def _normalize_ingredient_name (name : String) : String :=
  pyStrip (pyLower name)

/-- Embeds `_is_pantry_staple`: the for-loop with early return is the existential
scan `List.any`. -/
def _is_pantry_staple (name : String) : Bool :=
  let normalized := _normalize_ingredient_name name
  PANTRY_STAPLES.any fun staple =>
    pySubstrOf staple normalized || pySubstrOf normalized staple

/-- Embeds `_get_category`: case-insensitive trimmed lookup with fallback to
`AUTRE`. -/
def _get_category (category_str : String) : IngredientCategory :=
  let normalized := pyStrip (pyLower category_str)
  match CATEGORY_MAPPING.lookup normalized with
  | some c => c
  | none => IngredientCategory.autre

/-- An entry of the aggregation accumulator: the value dict
`{name, quantity, unit, category}`. -/
structure AggEntry where
  name : String
  quantity : ℚ
  unit : String
  category : IngredientCategory

/-- Insert one scaled ingredient usage into the accumulator under `key`:
add to the existing entry when the key is present, otherwise append a fresh
entry at the end (dict insertion order). -/
def insEntry :
    List (String × AggEntry) → String → ℚ → Ingredient →
      List (String × AggEntry)
  | [], key, qty, ing =>
    [(key, ⟨ing.name, qty, ing.unit, _get_category ing.category⟩)]
  | (k, e) :: rest, key, qty, ing =>
    if k = key then (k, ⟨e.name, e.quantity + qty, e.unit, e.category⟩) :: rest
    else (k, e) :: insEntry rest key qty ing

/-- The body of the inner ingredient loop of `aggregate_ingredients`. -/
def stepIngredient (portion_multiplier : ℚ) (exclude_pantry : Bool)
    (acc : List (String × AggEntry)) (ingredient : Ingredient) :
    List (String × AggEntry) :=
  if exclude_pantry && _is_pantry_staple ingredient.name then acc
  else
    insEntry acc (_normalize_ingredient_name ingredient.name)
      (ingredient.quantity * portion_multiplier) ingredient

/-- The slot loop of `aggregate_ingredients`.  A slot whose recipe id is
missing is skipped; `slot.portions / recipe.servings` raises
`ZeroDivisionError` when `recipe.servings == 0` (and only then). -/
def aggLoop (recipes : String → Option Recipe) (exclude_pantry : Bool) :
    List MealSlot → List (String × AggEntry) →
      Except String (List (String × AggEntry))
  | [], acc => .ok acc
  | slot :: rest, acc =>
    match recipes slot.recipe_id with
    | none => aggLoop recipes exclude_pantry rest acc
    | some recipe =>
      if recipe.servings = 0 then
        .error "ZeroDivisionError: division by zero"
      else
        aggLoop recipes exclude_pantry rest
          (recipe.ingredients.foldl
            (stepIngredient
              ((slot.portions : ℚ) / (recipe.servings : ℚ)) exclude_pantry)
            acc)

/-- The sort key comparison of `items.sort(key=lambda x: (x.category.value,
x.ingredient_name.lower()))`: lexicographic on the pair of strings. -/
def itemSortKeyLe (a b : GroceryListItem) : Bool :=
  if strLt a.category.value.toList b.category.value.toList then true
  else if strLt b.category.value.toList a.category.value.toList then false
  else !(strLt (pyLower b.ingredient_name).toList
      (pyLower a.ingredient_name).toList)

/-- Embeds `aggregate_ingredients`. -/
def aggregate_ingredients (plan : MealPlan)
    (recipes : String → Option Recipe) (exclude_pantry : Bool) :
    Except String GroceryList :=
  match aggLoop recipes exclude_pantry plan.slots [] with
  | .error e => .error e
  | .ok acc =>
    .ok ⟨(acc.map fun p =>
      GroceryListItem.mk p.2.name p.2.quantity p.2.unit p.2.category
        none none none).mergeSort itemSortKeyLe⟩

/-- The items of an aggregation outcome (`[]` when the call raised). -/
def itemsOf : Except String GroceryList → List GroceryListItem
  | .ok gl => gl.items
  | .error _ => []

/-- Whether an aggregation outcome is a produced grocery list rather than a
raised exception. -/
def isOkB : Except String GroceryList → Bool
  | .ok _ => true
  | .error _ => false

/-! ## Nutrition validation (`src/mealbot/planner/nutrition.py`) -/

/-- Embeds `DAILY_PROTEIN_MIN_G`. -/
def DAILY_PROTEIN_MIN_G : ℚ := 60
/-- Embeds `DAILY_CARBS_MAX_G`. -/
def DAILY_CARBS_MAX_G : ℚ := 150
/-- Embeds `HIGH_CARB_THRESHOLD_G`. -/
def HIGH_CARB_THRESHOLD_G : ℚ := 50

/-- Embeds `ValidationResult` dataclass. -/
structure ValidationResult where
  is_valid : Bool
  total : ℚ
  target : ℚ
  deficit : ℚ
  excess : ℚ

/-- Embeds `NutritionValidationResult` dataclass. -/
structure NutritionValidationResult where
  protein_valid : Bool
  carbs_valid : Bool
  protein_total : ℚ
  carbs_total : ℚ
  high_carb_recipes : Option (List String)

/-- Embeds `NutritionValidationResult.is_valid` property. -/
def NutritionValidationResult.is_valid (r : NutritionValidationResult) :
    Bool :=
  r.protein_valid && r.carbs_valid

/-- Embeds `validate_daily_protein`. -/
def validate_daily_protein (daily_macros : List Macros) : ValidationResult :=
  let total_protein := (daily_macros.map Macros.protein_g).sum
  ⟨decide (total_protein ≥ DAILY_PROTEIN_MIN_G), total_protein,
    DAILY_PROTEIN_MIN_G, max 0 (DAILY_PROTEIN_MIN_G - total_protein), 0⟩

/-- Embeds `validate_daily_carbs`. -/
def validate_daily_carbs (daily_macros : List Macros) : ValidationResult :=
  let total_carbs := (daily_macros.map Macros.carbs_g).sum
  ⟨decide (total_carbs ≤ DAILY_CARBS_MAX_G), total_carbs,
    DAILY_CARBS_MAX_G, 0, max 0 (total_carbs - DAILY_CARBS_MAX_G)⟩

/-- Embeds `is_high_carb_recipe`. -/
def is_high_carb_recipe (recipe : Recipe) : Bool :=
  match recipe.macros with
  | none => false
  | some m => decide (m.carbs_g > HIGH_CARB_THRESHOLD_G)

/-- The slot loop of `validate_meal_plan_nutrition`: collect the
portion-scaled macros and the high-carb recipe ids, in slot order.  The
Python guard `if recipe and recipe.macros:` skips a missing recipe and a
recipe without macros. -/
def nutriLoop (recipes : String → Option Recipe) :
    List MealSlot → List Macros → List String → List Macros × List String
  | [], ms, hc => (ms, hc)
  | slot :: rest, ms, hc =>
    match recipes slot.recipe_id with
    | none => nutriLoop recipes rest ms hc
    | some recipe =>
      match recipe.macros with
      | none => nutriLoop recipes rest ms hc
      | some m =>
        nutriLoop recipes rest
          (ms ++ [⟨m.calories * slot.portions,
                   m.protein_g * (slot.portions : ℚ),
                   m.carbs_g * (slot.portions : ℚ),
                   m.fat_g * (slot.portions : ℚ)⟩])
          (if is_high_carb_recipe recipe then hc ++ [recipe.id] else hc)

/-- Embeds `validate_meal_plan_nutrition`. -/
def validate_meal_plan_nutrition (plan : MealPlan)
    (recipes : String → Option Recipe) (day : String) :
    NutritionValidationResult :=
  let day_slots := plan.slots.filter fun slot => slot.day == day
  let st := nutriLoop recipes day_slots [] []
  let protein_result := validate_daily_protein st.1
  let carbs_result := validate_daily_carbs st.1
  ⟨protein_result.is_valid, carbs_result.is_valid, protein_result.total,
    carbs_result.total, if st.2.isEmpty then none else some st.2⟩

/-! ## Order lemmas for the code-point string comparison -/

theorem charEq_of_not_charLt {a b : Char} (hab : charLt a b = false)
    (hba : charLt b a = false) : a = b := by
  simp only [charLt, decide_eq_false_iff_not, not_lt] at hab hba
  exact Char.ext (UInt32.ext (Nat.le_antisymm hba hab))

theorem strLt_asymm : ∀ a b : List Char,
    strLt a b = true → strLt b a = false
  | [], [], h => by simp [strLt] at h
  | [], _ :: _, _ => by simp [strLt]
  | _ :: _, [], h => by simp [strLt] at h
  | a :: as, b :: bs, h => by
    simp only [strLt] at h ⊢
    by_cases hab : charLt a b = true
    · have hba : charLt b a = false := by
        simp only [charLt, decide_eq_true_eq] at hab
        simp only [charLt, decide_eq_false_iff_not]
        exact Nat.lt_asymm hab
      simp [hab, hba]
    · rw [Bool.not_eq_true] at hab
      by_cases hba : charLt b a = true
      · simp [hab, hba] at h
      · rw [Bool.not_eq_true] at hba
        simp only [hab, hba, if_false] at h ⊢
        exact strLt_asymm as bs h

theorem strLt_connex : ∀ a b : List Char,
    strLt a b = false → strLt b a = false → a = b
  | [], [], _, _ => rfl
  | [], _ :: _, h, _ => by simp [strLt] at h
  | _ :: _, [], _, h => by simp [strLt] at h
  | a :: as, b :: bs, h₁, h₂ => by
    simp only [strLt] at h₁ h₂
    by_cases hab : charLt a b = true
    · simp [hab] at h₁
    · rw [Bool.not_eq_true] at hab
      by_cases hba : charLt b a = true
      · simp [hab, hba] at h₂
      · rw [Bool.not_eq_true] at hba
        simp only [hab, hba, if_false] at h₁ h₂
        have := strLt_connex as bs h₁ h₂
        rw [charEq_of_not_charLt hab hba, this]

theorem strLt_trans : ∀ a b c : List Char,
    strLt a b = true → strLt b c = true → strLt a c = true
  | [], [], _, h, _ => by simp [strLt] at h
  | [], _ :: _, [], _, h => by simp [strLt] at h
  | [], _ :: _, _ :: _, _, _ => by simp [strLt]
  | _ :: _, [], _, h, _ => by simp [strLt] at h
  | _ :: _, _ :: _, [], _, h => by simp [strLt] at h
  | a :: as, b :: bs, c :: cs, h₁, h₂ => by
    simp only [strLt] at h₁ h₂ ⊢
    by_cases hab : charLt a b = true
    · simp only [charLt, decide_eq_true_eq] at hab
      by_cases hbc : charLt b c = true
      · simp only [charLt, decide_eq_true_eq] at hbc
        have : charLt a c = true := by
          simp only [charLt, decide_eq_true_eq]
          exact Nat.lt_trans hab hbc
        simp [this]
      · rw [Bool.not_eq_true] at hbc
        by_cases hcb : charLt c b = true
        · simp [hbc, hcb] at h₂
        · rw [Bool.not_eq_true] at hcb
          have hbceq := charEq_of_not_charLt hbc hcb
          subst hbceq
          have : charLt a b = true := by
            simp only [charLt, decide_eq_true_eq]; exact hab
          simp [this]
    · rw [Bool.not_eq_true] at hab
      by_cases hba : charLt b a = true
      · simp [hab, hba] at h₁
      · rw [Bool.not_eq_true] at hba
        have habeq := charEq_of_not_charLt hab hba
        subst habeq
        simp only [hab, hba, if_false] at h₁
        by_cases hbc : charLt a c = true
        · simp [hbc]
        · rw [Bool.not_eq_true] at hbc
          by_cases hcb : charLt c a = true
          · simp [hbc, hcb] at h₂
          · rw [Bool.not_eq_true] at hcb
            simp only [hbc, hcb, if_false] at h₂ ⊢
            exact strLt_trans as bs cs h₁ h₂

theorem bne_true {b : Bool} (h : b = false) : ¬ b = true := by
  simp [h]

theorem strLt_le_trans {x y z : List Char} (h₁ : strLt y x = false)
    (h₂ : strLt z y = false) : strLt z x = false := by
  by_cases h : strLt z x = true
  · by_cases hyz : strLt y z = true
    · rw [strLt_trans y z x hyz h] at h₁
      cases h₁
    · rw [Bool.not_eq_true] at hyz
      rw [strLt_connex y z hyz h₂] at h₁
      rw [h] at h₁
      cases h₁
  · rwa [Bool.not_eq_true] at h

theorem itemSortKeyLe_trans (a b c : GroceryListItem)
    (h₁ : itemSortKeyLe a b = true) (h₂ : itemSortKeyLe b c = true) :
    itemSortKeyLe a c = true := by
  simp only [itemSortKeyLe] at h₁ h₂ ⊢
  by_cases kab : strLt a.category.value.toList b.category.value.toList = true
  · rw [if_pos kab] at h₁
    by_cases kbc : strLt b.category.value.toList c.category.value.toList = true
    · rw [if_pos (strLt_trans _ _ _ kab kbc)]
    · rw [Bool.not_eq_true] at kbc
      by_cases kcb :
          strLt c.category.value.toList b.category.value.toList = true
      · rw [if_neg (bne_true kbc), if_pos kcb] at h₂
        cases h₂
      · rw [Bool.not_eq_true] at kcb
        rw [strLt_connex _ _ kbc kcb] at kab
        rw [if_pos kab]
  · rw [Bool.not_eq_true] at kab
    by_cases kba : strLt b.category.value.toList a.category.value.toList = true
    · rw [if_neg (bne_true kab), if_pos kba] at h₁
      cases h₁
    · rw [Bool.not_eq_true] at kba
      have hcateq := strLt_connex _ _ kab kba
      rw [if_neg (bne_true kab), if_neg (bne_true kba),
        Bool.not_eq_true'] at h₁
      by_cases kbc : strLt b.category.value.toList c.category.value.toList = true
      · rw [hcateq, if_pos kbc]
      · rw [Bool.not_eq_true] at kbc
        by_cases kcb :
            strLt c.category.value.toList b.category.value.toList = true
        · rw [if_neg (bne_true kbc), if_pos kcb] at h₂
          cases h₂
        · rw [Bool.not_eq_true] at kcb
          rw [if_neg (bne_true kbc), if_neg (bne_true kcb),
            Bool.not_eq_true'] at h₂
          rw [hcateq, if_neg (bne_true kbc), if_neg (bne_true kcb),
            Bool.not_eq_true']
          exact strLt_le_trans h₁ h₂

theorem itemSortKeyLe_total (a b : GroceryListItem) :
    (itemSortKeyLe a b || itemSortKeyLe b a) = true := by
  simp only [itemSortKeyLe]
  by_cases kab : strLt a.category.value.toList b.category.value.toList = true
  · rw [if_pos kab, Bool.true_or]
  · rw [Bool.not_eq_true] at kab
    by_cases kba : strLt b.category.value.toList a.category.value.toList = true
    · rw [if_neg (bne_true kab), if_pos kba, Bool.false_or, if_pos kba]
    · rw [Bool.not_eq_true] at kba
      rw [if_neg (bne_true kab), if_neg (bne_true kba),
        if_neg (bne_true kba), if_neg (bne_true kab)]
      by_cases nba : strLt (pyLower b.ingredient_name).toList
          (pyLower a.ingredient_name).toList = true
      · rw [strLt_asymm _ _ nba]
        simp
      · rw [Bool.not_eq_true] at nba
        rw [nba]
        simp

/-! ## C3: output ordering -/

/-- C3: The grocery list returned by `aggregate_ingredients` is sorted
ascending by the pair (string value of the category in code-point
lexicographic order, lower-cased ingredient name).  This is the amendment of
the claim: the code sorts by the category enum's *string value*
(`"autre" < "boissons" < "epicerie" < "frais" < "fruits" < "legumes" <
"proteines" < "surgeles"`), not by the spec's canonical
produce-first/other-last key. -/
theorem c3_sorted_by_value_then_name (plan : MealPlan)
    (recipes : String → Option Recipe) (exclude_pantry : Bool) :
    (itemsOf (aggregate_ingredients plan recipes exclude_pantry)).Pairwise
      (fun a b => itemSortKeyLe a b = true) := by
  unfold aggregate_ingredients
  cases h : aggLoop recipes exclude_pantry plan.slots [] with
  | error e => simp [itemsOf]
  | ok acc =>
    simpa [itemsOf] using
      List.sorted_mergeSort itemSortKeyLe_trans itemSortKeyLe_total
        (acc.map fun p =>
          GroceryListItem.mk p.2.name p.2.quantity p.2.unit p.2.category
            none none none)

/-! ## C6: daily carbohydrate validation -/

/-- C6: `validate_daily_carbs` returns `total = sum of carbs_g`, is valid
iff `total ≤ 150`, and `excess = max 0 (total - 150)`; in particular a
150.0 g day is valid while a 150.01 g day is invalid with excess 0.01. -/
theorem c6_validate_daily_carbs :
    (∀ daily_macros : List Macros,
      (validate_daily_carbs daily_macros).total =
          (daily_macros.map Macros.carbs_g).sum ∧
        ((validate_daily_carbs daily_macros).is_valid = true ↔
          (daily_macros.map Macros.carbs_g).sum ≤ 150) ∧
        (validate_daily_carbs daily_macros).excess =
          max 0 ((daily_macros.map Macros.carbs_g).sum - 150)) ∧
      (validate_daily_carbs [⟨600, 20, 150, 10⟩]).is_valid = true ∧
      (validate_daily_carbs [⟨600, 20, 150.01, 10⟩]).is_valid = false ∧
      (validate_daily_carbs [⟨600, 20, 150.01, 10⟩]).excess = 0.01 := by
  refine ⟨fun daily_macros => ⟨rfl, ?_, rfl⟩, ?_, ?_, ?_⟩
  · simp [validate_daily_carbs, DAILY_CARBS_MAX_G]
  · simp [validate_daily_carbs, DAILY_CARBS_MAX_G]
  · simp only [validate_daily_carbs, DAILY_CARBS_MAX_G, List.map_cons,
      List.map_nil, List.sum_singleton, decide_eq_false_iff_not, not_le]
    norm_num
  · simp only [validate_daily_carbs, DAILY_CARBS_MAX_G, List.map_cons,
      List.map_nil, List.sum_singleton]
    norm_num

/-! ## C7: pantry staple matching -/

/-- C7: `_is_pantry_staple` returns true iff some configured staple is a
contiguous substring of the normalized name or the normalized name is a
contiguous substring of some staple. -/
theorem c7_is_pantry_staple_iff (name : String) :
    _is_pantry_staple name = true ↔
      ∃ staple ∈ PANTRY_STAPLES,
        staple.toList <:+: (_normalize_ingredient_name name).toList ∨
          (_normalize_ingredient_name name).toList <:+: staple.toList := by
  simp [_is_pantry_staple, pySubstrOf, List.any_eq_true]

/-! ## Accumulator lemmas -/

/-- Association-list lookup in the aggregation accumulator (first match,
matching dict key access). -/
def lookupAcc : List (String × AggEntry) → String → Option AggEntry
  | [], _ => none
  | (k, e) :: rest, key => if k = key then some e else lookupAcc rest key

/-- The keys of the accumulator, in insertion order. -/
def keysOf (acc : List (String × AggEntry)) : List String :=
  acc.map Prod.fst

theorem lookupAcc_insEntry_self : ∀ (acc : List (String × AggEntry))
    (k : String) (q : ℚ) (ing : Ingredient),
    lookupAcc (insEntry acc k q ing) k =
      some (match lookupAcc acc k with
        | some e => ⟨e.name, e.quantity + q, e.unit, e.category⟩
        | none => ⟨ing.name, q, ing.unit, _get_category ing.category⟩)
  | [], k, q, ing => by simp [insEntry, lookupAcc]
  | (k₀, e₀) :: rest, k, q, ing => by
    by_cases h : k₀ = k
    · simp [insEntry, lookupAcc, h]
    · simp only [insEntry, h, if_false, lookupAcc]
      exact lookupAcc_insEntry_self rest k q ing

theorem lookupAcc_insEntry_ne : ∀ (acc : List (String × AggEntry))
    (k : String) (q : ℚ) (ing : Ingredient) (k' : String), k' ≠ k →
    lookupAcc (insEntry acc k q ing) k' = lookupAcc acc k'
  | [], k, q, ing, k', h => by
    simp [insEntry, lookupAcc, Ne.symm h]
  | (k₀, e₀) :: rest, k, q, ing, k', h => by
    by_cases h₀ : k₀ = k
    · subst h₀
      simp [insEntry, lookupAcc, Ne.symm h]
    · simp only [insEntry, h₀, if_false, lookupAcc]
      by_cases h₁ : k₀ = k'
      · simp [h₁]
      · simp only [h₁, if_false]
        exact lookupAcc_insEntry_ne rest k q ing k' h

theorem keysOf_insEntry : ∀ (acc : List (String × AggEntry)) (k : String)
    (q : ℚ) (ing : Ingredient),
    keysOf (insEntry acc k q ing) =
      if (lookupAcc acc k).isSome then keysOf acc else keysOf acc ++ [k]
  | [], k, q, ing => by simp [insEntry, keysOf, lookupAcc]
  | (k₀, e₀) :: rest, k, q, ing => by
    by_cases h : k₀ = k
    · simp [insEntry, keysOf, lookupAcc, h]
    · simp only [insEntry, h, if_false, keysOf, List.map_cons, lookupAcc]
      rw [show (insEntry rest k q ing).map Prod.fst = keysOf (insEntry rest k q ing) from rfl,
        keysOf_insEntry rest k q ing]
      by_cases h' : (lookupAcc rest k).isSome
      · simp [h', keysOf]
      · simp [h', keysOf]

theorem lookupAcc_eq_none_iff : ∀ (acc : List (String × AggEntry))
    (k : String), lookupAcc acc k = none ↔ k ∉ keysOf acc
  | [], k => by simp [lookupAcc, keysOf]
  | (k₀, e₀) :: rest, k => by
    by_cases h : k₀ = k
    · simp [lookupAcc, keysOf, h]
    · rw [lookupAcc, if_neg h, lookupAcc_eq_none_iff rest k]
      simp only [keysOf, List.map_cons, List.mem_cons, not_or]
      constructor
      · intro hk
        exact ⟨fun heq => h heq.symm, hk⟩
      · intro hk
        exact hk.2

theorem lookupAcc_mem : ∀ (acc : List (String × AggEntry)) (k : String)
    (e : AggEntry), lookupAcc acc k = some e → (k, e) ∈ acc
  | [], k, e, h => by simp [lookupAcc] at h
  | (k₀, e₀) :: rest, k, e, h => by
    by_cases hk : k₀ = k
    · subst hk
      rw [lookupAcc, if_pos rfl] at h
      injection h with h
      subst h
      exact List.mem_cons_self _ _
    · rw [lookupAcc, if_neg hk] at h
      exact List.mem_cons_of_mem _ (lookupAcc_mem rest k e h)

theorem mem_eq_of_nodup_keys : ∀ (acc : List (String × AggEntry))
    (k : String) (e : AggEntry), (keysOf acc).Nodup → (k, e) ∈ acc →
    ∀ p ∈ acc, p.1 = k → p.2 = e
  | [], _, _, _, hmem => by simp at hmem
  | (k₀, e₀) :: rest, k, e, hnd, hmem => by
    intro p hp hpk
    rw [keysOf, List.map_cons, List.nodup_cons] at hnd
    rcases List.mem_cons.mp hmem with heq | hmem'
    · rcases List.mem_cons.mp hp with rfl | hp'
      · cases heq
        rfl
      · exfalso
        apply hnd.1
        cases heq
        exact List.mem_map.mpr ⟨p, hp', hpk⟩
    · rcases List.mem_cons.mp hp with rfl | hp'
      · exfalso
        apply hnd.1
        replace hpk : k₀ = k := hpk
        rw [hpk]
        exact List.mem_map.mpr ⟨(k, e), hmem', rfl⟩
      · exact mem_eq_of_nodup_keys rest k e hnd.2 hmem' p hp' hpk

/-- Every entry of `insEntry acc k q ing` either carries over the name, unit
and category of an entry of `acc` under the same key, or is the freshly
inserted entry. -/
theorem insEntry_mem : ∀ (acc : List (String × AggEntry)) (k : String)
    (q : ℚ) (ing : Ingredient) (p : String × AggEntry),
    p ∈ insEntry acc k q ing →
    (∃ e : AggEntry, (p.1, e) ∈ acc ∧ e.name = p.2.name) ∨
      (p.1 = k ∧ p.2.name = ing.name)
  | [], k, q, ing, p, hp => by
    simp only [insEntry, List.mem_singleton] at hp
    subst hp
    exact Or.inr ⟨rfl, rfl⟩
  | (k₀, e₀) :: rest, k, q, ing, p, hp => by
    by_cases h : k₀ = k
    · rw [insEntry, if_pos h] at hp
      rcases List.mem_cons.mp hp with rfl | hp'
      · exact Or.inl ⟨e₀, List.mem_cons_self _ _, rfl⟩
      · exact Or.inl ⟨p.2, List.mem_cons_of_mem _ hp', rfl⟩
    · rw [insEntry, if_neg h] at hp
      rcases List.mem_cons.mp hp with rfl | hp'
      · exact Or.inl ⟨e₀, List.mem_cons_self _ _, rfl⟩
      · rcases insEntry_mem rest k q ing p hp' with ⟨e, he, hn⟩ | hnew
        · exact Or.inl ⟨e, List.mem_cons_of_mem _ he, hn⟩
        · exact Or.inr hnew

/-- Invariant of the aggregation accumulator: keys are distinct, every
entry's key is the normalized form of its stored display name, and — when
pantry exclusion is on — no stored name is a pantry staple. -/
def accInv (exclude_pantry : Bool) (acc : List (String × AggEntry)) : Prop :=
  (keysOf acc).Nodup ∧
    ∀ p ∈ acc, _normalize_ingredient_name p.2.name = p.1 ∧
      (exclude_pantry = true → _is_pantry_staple p.2.name = false)

theorem accInv_nil (exclude_pantry : Bool) : accInv exclude_pantry [] :=
  ⟨List.nodup_nil, by simp⟩

theorem insEntry_inv {exclude_pantry : Bool} {acc : List (String × AggEntry)}
    (q : ℚ) (ing : Ingredient) (h : accInv exclude_pantry acc)
    (hst : exclude_pantry = true → _is_pantry_staple ing.name = false) :
    accInv exclude_pantry
      (insEntry acc (_normalize_ingredient_name ing.name) q ing) := by
  constructor
  · rw [keysOf_insEntry]
    by_cases hk : (lookupAcc acc (_normalize_ingredient_name ing.name)).isSome
    · rw [if_pos hk]
      exact h.1
    · rw [if_neg hk]
      refine List.Nodup.append h.1 (List.nodup_singleton _) ?_
      intro a ha hb
      rw [List.mem_singleton] at hb
      subst hb
      rw [Option.not_isSome_iff_eq_none, lookupAcc_eq_none_iff] at hk
      exact hk ha
  · intro p hp
    rcases insEntry_mem acc _ q ing p hp with ⟨e, he, hn⟩ | ⟨hk, hn⟩
    · rcases h.2 (p.1, e) he with ⟨hnorm, hstap⟩
      rw [hn] at hnorm hstap
      exact ⟨hnorm, hstap⟩
    · rw [hn, hk]
      exact ⟨rfl, hst⟩

theorem stepIngredient_inv {exclude_pantry : Bool} (m : ℚ)
    {acc : List (String × AggEntry)} (ing : Ingredient)
    (h : accInv exclude_pantry acc) :
    accInv exclude_pantry (stepIngredient m exclude_pantry acc ing) := by
  unfold stepIngredient
  by_cases hsk : (exclude_pantry && _is_pantry_staple ing.name) = true
  · rw [if_pos hsk]
    exact h
  · rw [if_neg hsk]
    refine insEntry_inv _ ing h ?_
    intro hex
    subst hex
    rwa [Bool.true_and, Bool.not_eq_true] at hsk

theorem foldIngredients_inv {exclude_pantry : Bool} (m : ℚ) :
    ∀ (ings : List Ingredient) (acc : List (String × AggEntry)),
    accInv exclude_pantry acc →
    accInv exclude_pantry
      (ings.foldl (stepIngredient m exclude_pantry) acc)
  | [], acc, h => h
  | ing :: ings, acc, h => by
    rw [List.foldl_cons]
    exact foldIngredients_inv m ings _ (stepIngredient_inv m ing h)

theorem aggLoop_inv {exclude_pantry : Bool}
    {recipes : String → Option Recipe} :
    ∀ (slots : List MealSlot) (acc acc' : List (String × AggEntry)),
    aggLoop recipes exclude_pantry slots acc = .ok acc' →
    accInv exclude_pantry acc → accInv exclude_pantry acc'
  | [], acc, acc', h, hinv => by
    rw [aggLoop] at h
    cases h
    exact hinv
  | slot :: rest, acc, acc', h, hinv => by
    rw [aggLoop] at h
    cases hrec : recipes slot.recipe_id with
    | none =>
      simp only [hrec] at h
      exact aggLoop_inv rest acc acc' h hinv
    | some recipe =>
      simp only [hrec] at h
      by_cases hs : recipe.servings = 0
      · rw [if_pos hs] at h
        cases h
      · rw [if_neg hs] at h
        exact aggLoop_inv rest _ acc' h
          (foldIngredients_inv _ recipe.ingredients acc hinv)

/-! ## Quantity tracking through the ingredient fold -/

/-- The ingredients of a list that contribute to accumulator key `k`:
not skipped by the pantry filter, and normalizing to `k`. -/
def ingContrib (exclude_pantry : Bool) (k : String)
    (ings : List Ingredient) : List Ingredient :=
  ings.filter fun i =>
    !(exclude_pantry && _is_pantry_staple i.name) &&
      (_normalize_ingredient_name i.name == k)

/-- The total scaled quantity contributed to key `k` by a list of
ingredients under multiplier `m`. -/
def contribSum (m : ℚ) (exclude_pantry : Bool) (k : String) :
    List Ingredient → ℚ
  | [] => 0
  | i :: is =>
    (if !(exclude_pantry && _is_pantry_staple i.name) &&
        (_normalize_ingredient_name i.name == k) then i.quantity * m else 0) +
      contribSum m exclude_pantry k is

theorem contribSum_eq (m : ℚ) (ex : Bool) (k : String) :
    ∀ ings : List Ingredient,
    contribSum m ex k ings =
      ((ingContrib ex k ings).map Ingredient.quantity).sum * m
  | [] => by simp [contribSum, ingContrib]
  | i :: is => by
    have hic : ingContrib ex k (i :: is) =
        if (!(ex && _is_pantry_staple i.name) &&
            (_normalize_ingredient_name i.name == k)) = true then
          i :: ingContrib ex k is
        else ingContrib ex k is := by
      rw [ingContrib, List.filter_cons]
      rfl
    rw [contribSum, contribSum_eq m ex k is, hic]
    by_cases hc : (!(ex && _is_pantry_staple i.name) &&
        (_normalize_ingredient_name i.name == k)) = true
    · rw [if_pos hc, if_pos hc, List.map_cons, List.sum_cons]
      ring
    · rw [if_neg hc, if_neg hc]
      ring

theorem foldIng_lookup_some (m : ℚ) (ex : Bool) (k : String) :
    ∀ (ings : List Ingredient) (acc : List (String × AggEntry))
      (e : AggEntry),
    lookupAcc acc k = some e →
    lookupAcc (ings.foldl (stepIngredient m ex) acc) k =
      some ⟨e.name, e.quantity + contribSum m ex k ings, e.unit, e.category⟩
  | [], acc, e, h => by
    obtain ⟨n, q, u, c⟩ := e
    rw [List.foldl_nil, h]
    simp [contribSum]
  | ing :: ings, acc, e, h => by
    rw [List.foldl_cons, stepIngredient]
    by_cases hsk : (ex && _is_pantry_staple ing.name) = true
    · rw [if_pos hsk, foldIng_lookup_some m ex k ings acc e h]
      have hcs : contribSum m ex k (ing :: ings) = contribSum m ex k ings := by
        rw [contribSum]
        simp [hsk]
      rw [hcs]
    · rw [if_neg hsk]
      rw [Bool.not_eq_true] at hsk
      by_cases hk : _normalize_ingredient_name ing.name = k
      · subst hk
        have hins := lookupAcc_insEntry_self acc
          (_normalize_ingredient_name ing.name) (ing.quantity * m) ing
        simp only [h] at hins
        rw [foldIng_lookup_some m ex _ ings _ _ hins]
        have hcs : contribSum m ex (_normalize_ingredient_name ing.name)
            (ing :: ings) =
            ing.quantity * m +
              contribSum m ex (_normalize_ingredient_name ing.name) ings := by
          rw [contribSum]
          simp [hsk]
        rw [hcs]
        simp [add_assoc]
      · have hne := lookupAcc_insEntry_ne acc
          (_normalize_ingredient_name ing.name) (ing.quantity * m) ing k
          (fun hh => hk hh.symm)
        rw [foldIng_lookup_some m ex k ings _ e (by rw [hne]; exact h)]
        have hcs : contribSum m ex k (ing :: ings) =
            contribSum m ex k ings := by
          rw [contribSum]
          simp [hk]
        rw [hcs]

theorem foldIng_lookup_none_of_no_contrib (m : ℚ) (ex : Bool) (k : String) :
    ∀ (ings : List Ingredient) (acc : List (String × AggEntry)),
    lookupAcc acc k = none → ingContrib ex k ings = [] →
    lookupAcc (ings.foldl (stepIngredient m ex) acc) k = none
  | [], acc, h, _ => by
    rw [List.foldl_nil, h]
  | ing :: ings, acc, h, hc => by
    rw [ingContrib, List.filter_cons] at hc
    by_cases hcond : (!(ex && _is_pantry_staple ing.name) &&
        (_normalize_ingredient_name ing.name == k)) = true
    · rw [if_pos hcond] at hc
      cases hc
    · rw [if_neg hcond] at hc
      rw [List.foldl_cons, stepIngredient]
      by_cases hsk : (ex && _is_pantry_staple ing.name) = true
      · rw [if_pos hsk]
        exact foldIng_lookup_none_of_no_contrib m ex k ings acc h hc
      · rw [if_neg hsk]
        have hk : _normalize_ingredient_name ing.name ≠ k := by
          intro hh
          apply hcond
          rw [Bool.and_eq_true, Bool.not_eq_true']
          rw [Bool.not_eq_true] at hsk
          exact ⟨hsk, by rw [hh, beq_self_eq_true]⟩
        have hne := lookupAcc_insEntry_ne acc
          (_normalize_ingredient_name ing.name) (ing.quantity * m) ing k
          (fun hh => hk hh.symm)
        exact foldIng_lookup_none_of_no_contrib m ex k ings _
          (by rw [hne]; exact h) hc

theorem foldIng_lookup_none_of_contrib (m : ℚ) (ex : Bool) (k : String) :
    ∀ (ings : List Ingredient) (acc : List (String × AggEntry))
      (i₀ : Ingredient) (cs : List Ingredient),
    lookupAcc acc k = none → ingContrib ex k ings = i₀ :: cs →
    lookupAcc (ings.foldl (stepIngredient m ex) acc) k =
      some ⟨i₀.name, contribSum m ex k ings, i₀.unit,
        _get_category i₀.category⟩
  | [], acc, i₀, cs, h, hc => by
    cases hc
  | ing :: ings, acc, i₀, cs, h, hc => by
    rw [ingContrib, List.filter_cons] at hc
    by_cases hcond : (!(ex && _is_pantry_staple ing.name) &&
        (_normalize_ingredient_name ing.name == k)) = true
    · rw [if_pos hcond] at hc
      injection hc with hc₁ hc₂
      subst hc₁
      rw [Bool.and_eq_true, Bool.not_eq_true'] at hcond
      obtain ⟨hsk, hkk⟩ := hcond
      have hk : _normalize_ingredient_name ing.name = k := by
        rwa [beq_iff_eq] at hkk
      subst hk
      rw [List.foldl_cons, stepIngredient, if_neg (bne_true hsk)]
      have hins := lookupAcc_insEntry_self acc
        (_normalize_ingredient_name ing.name) (ing.quantity * m) ing
      simp only [h] at hins
      rw [foldIng_lookup_some m ex _ ings _ _ hins]
      have hcs : contribSum m ex (_normalize_ingredient_name ing.name)
          (ing :: ings) =
          ing.quantity * m +
            contribSum m ex (_normalize_ingredient_name ing.name) ings := by
        rw [contribSum]
        simp [bne_true hsk, beq_self_eq_true]
      rw [hcs]
    · rw [if_neg hcond] at hc
      rw [List.foldl_cons, stepIngredient]
      have hcs : contribSum m ex k (ing :: ings) =
          contribSum m ex k ings := by
        rw [contribSum]
        simp only [hcond, Bool.false_eq_true, if_false, zero_add]
      rw [hcs]
      by_cases hsk : (ex && _is_pantry_staple ing.name) = true
      · rw [if_pos hsk]
        exact foldIng_lookup_none_of_contrib m ex k ings acc i₀ cs h hc
      · rw [if_neg hsk]
        have hk : _normalize_ingredient_name ing.name ≠ k := by
          intro hh
          apply hcond
          rw [Bool.and_eq_true, Bool.not_eq_true']
          rw [Bool.not_eq_true] at hsk
          exact ⟨hsk, by rw [hh, beq_self_eq_true]⟩
        have hne := lookupAcc_insEntry_ne acc
          (_normalize_ingredient_name ing.name) (ing.quantity * m) ing k
          (fun hh => hk hh.symm)
        exact foldIng_lookup_none_of_contrib m ex k ings _ i₀ cs
          (by rw [hne]; exact h) hc

theorem aggLoop_uniform (recipes : String → Option Recipe) (ex : Bool)
    (rid : String) (r : Recipe) (P : ℤ) (k : String)
    (hr : recipes rid = some r) (hs : r.servings ≠ 0) :
    ∀ (slots : List MealSlot) (acc : List (String × AggEntry)) (e : AggEntry),
    (∀ s ∈ slots, s.recipe_id = rid ∧ s.portions = P) →
    lookupAcc acc k = some e →
    ∃ acc', aggLoop recipes ex slots acc = .ok acc' ∧
      lookupAcc acc' k = some ⟨e.name,
        e.quantity + slots.length *
          contribSum ((P : ℚ) / (r.servings : ℚ)) ex k r.ingredients,
        e.unit, e.category⟩
  | [], acc, e, _, h => by
    refine ⟨acc, by rw [aggLoop], ?_⟩
    rw [h]
    obtain ⟨n, q, u, c⟩ := e
    simp
  | slot :: rest, acc, e, hu, h => by
    obtain ⟨hrid, hP⟩ := hu slot (List.mem_cons_self _ _)
    have hbump := foldIng_lookup_some ((P : ℚ) / (r.servings : ℚ)) ex k
      r.ingredients acc e h
    obtain ⟨acc', hloop, hfin⟩ := aggLoop_uniform recipes ex rid r P k hr hs
      rest _ _ (fun s hs' => hu s (List.mem_cons_of_mem _ hs')) hbump
    refine ⟨acc', ?_, ?_⟩
    · rw [aggLoop, hrid]
      simp only [hr, if_neg hs, hP]
      exact hloop
    · rw [hfin]
      simp only [List.length_cons, Option.some.injEq, AggEntry.mk.injEq,
        eq_self_iff_true, true_and, and_true]
      push_cast
      ring

theorem filter_eq_singleton_of_nodup_map {α β : Type} {l : List α}
    {f : α → β} {p : α → Bool} {i : α} (hnd : (l.map f).Nodup) (hi : i ∈ l)
    (hpi : p i = true) (himp : ∀ j, p j = true → f j = f i) :
    l.filter p = [i] := by
  induction l with
  | nil => cases hi
  | cons a l ih =>
    rw [List.map_cons, List.nodup_cons] at hnd
    rcases List.mem_cons.mp hi with rfl | hi'
    · rw [List.filter_cons, if_pos hpi]
      have hnil : l.filter p = [] := by
        rw [List.filter_eq_nil_iff]
        intro j hj hpj
        apply hnd.1
        have hfj := himp j hpj
        rw [← hfj]
        exact List.mem_map.mpr ⟨j, hj, rfl⟩
      rw [hnil]
    · have hpa : p a = false := by
        by_cases hpa : p a = true
        · exfalso
          apply hnd.1
          have hfa := himp a hpa
          rw [hfa]
          exact List.mem_map.mpr ⟨i, hi', rfl⟩
        · rwa [Bool.not_eq_true] at hpa
      rw [List.filter_cons, if_neg (bne_true hpa)]
      exact ih hnd.2 hi'

/-! ## C1: uniform meal plan aggregation -/

/-- C1: For a meal plan whose slots all reference the same recipe `r` (via
id `rid`), `N` slots with portions `P` each, and an ingredient `i` of `r`
that is not a pantry staple, aggregation with pantry exclusion produces
exactly one item whose normalized name is that of `i`, and its total
quantity is `N * P * (i.quantity / r.servings)`.  The recipe's ingredients
are assumed to have pairwise distinct normalized names, the implicit
well-formedness the claim's phrase "that ingredient" presupposes. -/
theorem c1_uniform_plan_quantity
    (plan : MealPlan) (recipes : String → Option Recipe) (rid : String)
    (r : Recipe) (P : ℤ) (N : ℕ) (i : Ingredient)
    (hslots : ∀ s ∈ plan.slots, s.recipe_id = rid ∧ s.portions = P)
    (hN : plan.slots.length = N) (hN0 : 0 < N)
    (hr : recipes rid = some r) (hserv : 0 < r.servings)
    (hi : i ∈ r.ingredients)
    (hstap : _is_pantry_staple i.name = false)
    (hnd : (r.ingredients.map
      (fun j => _normalize_ingredient_name j.name)).Nodup) :
    (itemsOf (aggregate_ingredients plan recipes true)).countP
        (fun it => _normalize_ingredient_name it.ingredient_name ==
          _normalize_ingredient_name i.name) = 1 ∧
      ∀ it ∈ itemsOf (aggregate_ingredients plan recipes true),
        _normalize_ingredient_name it.ingredient_name =
          _normalize_ingredient_name i.name →
        it.total_quantity =
          (N : ℚ) * (P : ℚ) * (i.quantity / (r.servings : ℚ)) := by
  have hs0 : r.servings ≠ 0 := hserv.ne'
  have hcontrib : ingContrib true (_normalize_ingredient_name i.name)
      r.ingredients = [i] := by
    refine filter_eq_singleton_of_nodup_map hnd hi ?_ ?_
    · simp [hstap]
    · intro j hj
      rw [Bool.and_eq_true, beq_iff_eq] at hj
      exact hj.2
  cases hsl : plan.slots with
  | nil =>
    rw [hsl] at hN
    simp at hN
    omega
  | cons s0 rest =>
    rw [hsl] at hslots hN
    obtain ⟨hrid0, hP0⟩ := hslots s0 (List.mem_cons_self _ _)
    have h1 := foldIng_lookup_none_of_contrib
      ((P : ℚ) / (r.servings : ℚ)) true (_normalize_ingredient_name i.name)
      r.ingredients [] i [] rfl hcontrib
    obtain ⟨acc', hloop, hfin⟩ := aggLoop_uniform recipes true rid r P
      (_normalize_ingredient_name i.name) hr hs0 rest _ _
      (fun s hs' => hslots s (List.mem_cons_of_mem _ hs')) h1
    have hfull : aggLoop recipes true plan.slots [] = .ok acc' := by
      rw [hsl, aggLoop, hrid0]
      simp only [hr, if_neg hs0, hP0]
      exact hloop
    have hinv : accInv true acc' :=
      aggLoop_inv plan.slots [] acc' hfull (accInv_nil true)
    have hquant : contribSum ((P : ℚ) / (r.servings : ℚ)) true
        (_normalize_ingredient_name i.name) r.ingredients =
        i.quantity * ((P : ℚ) / (r.servings : ℚ)) := by
      rw [contribSum_eq, hcontrib]
      simp
    have hitems : itemsOf (aggregate_ingredients plan recipes true) =
        (acc'.map fun p =>
          GroceryListItem.mk p.2.name p.2.quantity p.2.unit p.2.category
            none none none).mergeSort itemSortKeyLe := by
      rw [aggregate_ingredients, hfull]
      rfl
    have hkmem : _normalize_ingredient_name i.name ∈ keysOf acc' := by
      by_contra hnk
      rw [← lookupAcc_eq_none_iff] at hnk
      rw [hnk] at hfin
      cases hfin
    constructor
    · rw [hitems]
      rw [List.Perm.countP_eq _ (List.mergeSort_perm _ _)]
      rw [List.countP_map]
      have hc1 : List.countP ((fun it : GroceryListItem =>
            _normalize_ingredient_name it.ingredient_name ==
              _normalize_ingredient_name i.name) ∘ fun p =>
            GroceryListItem.mk p.2.name p.2.quantity p.2.unit p.2.category
              none none none) acc' =
          List.countP (fun p : String × AggEntry =>
            p.1 == _normalize_ingredient_name i.name) acc' := by
        refine List.countP_congr ?_
        intro p hp
        have hn := (hinv.2 p hp).1
        simp only [Function.comp]
        rw [hn]
      rw [hc1]
      have hc2 : List.countP (fun p : String × AggEntry =>
            p.1 == _normalize_ingredient_name i.name) acc' =
          List.countP (fun s => s == _normalize_ingredient_name i.name)
            (keysOf acc') := by
        rw [keysOf, List.countP_map]
        rfl
      rw [hc2]
      have hc3 : List.countP (fun s => s == _normalize_ingredient_name i.name)
          (keysOf acc') =
          List.count (_normalize_ingredient_name i.name) (keysOf acc') := rfl
      rw [hc3]
      exact List.count_eq_one_of_mem hinv.1 hkmem
    · intro it hit hnorm
      rw [hitems] at hit
      have hit' := (List.mergeSort_perm _ itemSortKeyLe).mem_iff.mp hit
      obtain ⟨p, hp, rfl⟩ := List.mem_map.mp hit'
      have hp1 : p.1 = _normalize_ingredient_name i.name := by
        rw [← (hinv.2 p hp).1]
        exact hnorm
      have hpe := mem_eq_of_nodup_keys acc' _ _ hinv.1
        (lookupAcc_mem acc' _ _ hfin) p hp hp1
      show p.2.quantity = _
      simp only [hpe]
      rw [hquant]
      rw [List.length_cons] at hN
      rw [← hN]
      push_cast
      ring

/-! ## C4: uniqueness of normalized names -/

/-- C4: No two items of an aggregated grocery list share the same
normalized (lower-cased, trimmed) ingredient name, for every plan, recipe
table and pantry-exclusion flag. -/
theorem c4_normalized_names_unique (plan : MealPlan)
    (recipes : String → Option Recipe) (exclude_pantry : Bool) :
    (itemsOf (aggregate_ingredients plan recipes exclude_pantry)).Pairwise
      (fun a b => _normalize_ingredient_name a.ingredient_name ≠
        _normalize_ingredient_name b.ingredient_name) := by
  unfold aggregate_ingredients
  cases h : aggLoop recipes exclude_pantry plan.slots [] with
  | error e => simp [itemsOf]
  | ok acc =>
    have hinv := aggLoop_inv plan.slots [] acc h (accInv_nil exclude_pantry)
    simp only [itemsOf]
    have hkeys : List.Pairwise (fun p q : String × AggEntry => p.1 ≠ q.1)
        acc := by
      have := hinv.1
      rw [keysOf] at this
      exact List.pairwise_map.mp this
    have hmap : List.Pairwise
        (fun a b : GroceryListItem =>
          _normalize_ingredient_name a.ingredient_name ≠
            _normalize_ingredient_name b.ingredient_name)
        (acc.map fun p =>
          GroceryListItem.mk p.2.name p.2.quantity p.2.unit p.2.category
            none none none) := by
      rw [List.pairwise_map]
      refine hkeys.imp_of_mem ?_
      intro p q hp hq hne
      show _normalize_ingredient_name p.2.name ≠
        _normalize_ingredient_name q.2.name
      rw [(hinv.2 p hp).1, (hinv.2 q hq).1]
      exact hne
    exact hmap.perm (List.mergeSort_perm _ _).symm fun hxy => Ne.symm hxy

/-! ## C9: empty-normalized-name ingredients -/

/-- C9: A name normalizing to the empty string is always classified as a
pantry staple (the empty string is a substring of every staple and the
staple set is non-empty), and consequently aggregation with pantry
exclusion never emits an item whose normalized name is empty. -/
theorem c9_empty_name_is_staple_and_excluded :
    (∀ name : String, _normalize_ingredient_name name = "" →
      _is_pantry_staple name = true) ∧
      ∀ (plan : MealPlan) (recipes : String → Option Recipe),
        (itemsOf (aggregate_ingredients plan recipes true)).countP
          (fun it => _normalize_ingredient_name it.ingredient_name == "") =
          0 := by
  have hpart1 : ∀ name : String, _normalize_ingredient_name name = "" →
      _is_pantry_staple name = true := by
    intro name hname
    simp only [_is_pantry_staple]
    rw [hname]
    decide
  refine ⟨hpart1, ?_⟩
  intro plan recipes
  unfold aggregate_ingredients
  cases h : aggLoop recipes true plan.slots [] with
  | error e => simp [itemsOf]
  | ok acc =>
    have hinv := aggLoop_inv plan.slots [] acc h (accInv_nil true)
    simp only [itemsOf]
    rw [List.Perm.countP_eq _ (List.mergeSort_perm _ _), List.countP_map,
      List.countP_eq_zero]
    intro p hp
    simp only [Function.comp]
    intro hq
    rw [beq_iff_eq] at hq
    have hstap := (hinv.2 p hp).2 rfl
    have : _is_pantry_staple p.2.name = true := by
      apply hpart1
      exact hq
    rw [this] at hstap
    cases hstap

/-! ## C5: zero servings -/

theorem aggLoop_error_of_zero_servings (recipes : String → Option Recipe)
    (ex : Bool) :
    ∀ (slots : List MealSlot) (acc : List (String × AggEntry)),
    (∃ s ∈ slots, ∃ r, recipes s.recipe_id = some r ∧ r.servings = 0) →
    ∃ msg, aggLoop recipes ex slots acc = .error msg
  | [], acc, h => by simp at h
  | slot :: rest, acc, h => by
    obtain ⟨s, hs, r, hrec, hserv⟩ := h
    rw [aggLoop]
    cases hr0 : recipes slot.recipe_id with
    | none =>
      rcases List.mem_cons.mp hs with rfl | hs'
      · rw [hr0] at hrec
        cases hrec
      · simp only
        exact aggLoop_error_of_zero_servings recipes ex rest acc
          ⟨s, hs', r, hrec, hserv⟩
    | some recipe =>
      simp only
      by_cases hz : recipe.servings = 0
      · exact ⟨_, by rw [if_pos hz]⟩
      · rcases List.mem_cons.mp hs with rfl | hs'
        · rw [hr0] at hrec
          injection hrec with hh
          subst hh
          exact absurd hserv hz
        · rw [if_neg hz]
          exact aggLoop_error_of_zero_servings recipes ex rest _
            ⟨s, hs', r, hrec, hserv⟩

/-- C5 (amended): a slot resolving to a recipe with `servings = 0` makes
`aggregate_ingredients` raise `ZeroDivisionError` (no grocery list is
produced); with *negative* servings the code does not raise — see the
counterexample. -/
theorem c5_zero_servings_raises (plan : MealPlan)
    (recipes : String → Option Recipe) (exclude_pantry : Bool)
    (slot : MealSlot) (r : Recipe) (hslot : slot ∈ plan.slots)
    (hrec : recipes slot.recipe_id = some r) (hserv : r.servings = 0)
    (hing : r.ingredients ≠ []) :
    isOkB (aggregate_ingredients plan recipes exclude_pantry) = false := by
  obtain ⟨msg, hmsg⟩ := aggLoop_error_of_zero_servings recipes exclude_pantry
    plan.slots [] ⟨slot, hslot, r, hrec, hserv⟩
  rw [aggregate_ingredients, hmsg]
  rfl

/-! ## C8: by_category partitions -/

theorem bucketOf_byCatStep :
    ∀ (acc : List (IngredientCategory × List GroceryListItem))
      (it : GroceryListItem) (c : IngredientCategory),
    bucketOf (byCatStep acc it) c =
      bucketOf acc c ++ (if it.category = c then [it] else [])
  | [], it, c => by
    by_cases h : it.category = c
    · rw [byCatStep, bucketOf, if_pos h, bucketOf, if_pos h]
      rfl
    · rw [byCatStep, bucketOf, if_neg h, bucketOf, if_neg h]
      rfl
  | (k, b) :: rest, it, c => by
    rw [byCatStep]
    by_cases hk : k = it.category
    · rw [if_pos hk, bucketOf, bucketOf]
      by_cases hc : k = c
      · rw [if_pos hc, if_pos hc, if_pos (hk ▸ hc)]
      · rw [if_neg hc, if_neg hc,
          if_neg (fun hh => hc (hk.trans hh)), List.append_nil]
    · rw [if_neg hk, bucketOf, bucketOf]
      by_cases hc : k = c
      · rw [if_pos hc, if_pos hc,
          if_neg (fun hh => hk (hc.trans hh.symm)), List.append_nil]
      · rw [if_neg hc, if_neg hc]
        exact bucketOf_byCatStep rest it c

theorem bucketOf_foldl :
    ∀ (items : List GroceryListItem)
      (acc : List (IngredientCategory × List GroceryListItem))
      (c : IngredientCategory),
    bucketOf (items.foldl byCatStep acc) c =
      bucketOf acc c ++ items.filter (fun it => decide (it.category = c))
  | [], acc, c => by simp
  | it :: items, acc, c => by
    rw [List.foldl_cons, bucketOf_foldl items _ c, bucketOf_byCatStep,
      List.filter_cons]
    by_cases h : it.category = c
    · rw [if_pos h, if_pos (by simp [h])]
      simp
    · rw [if_neg h, if_neg (by simp [h]), List.append_nil]

theorem sum_byCatStep :
    ∀ (acc : List (IngredientCategory × List GroceryListItem))
      (it : GroceryListItem),
    ((byCatStep acc it).map (fun p => p.2.length)).sum =
      (acc.map (fun p => p.2.length)).sum + 1
  | [], it => by simp [byCatStep]
  | (k, b) :: rest, it => by
    rw [byCatStep]
    by_cases hk : k = it.category
    · rw [if_pos hk]
      simp only [List.map_cons, List.sum_cons, List.length_append,
        List.length_singleton]
      omega
    · rw [if_neg hk]
      simp only [List.map_cons, List.sum_cons, sum_byCatStep rest it]
      omega

theorem sum_foldl :
    ∀ (items : List GroceryListItem)
      (acc : List (IngredientCategory × List GroceryListItem)),
    ((items.foldl byCatStep acc).map (fun p => p.2.length)).sum =
      (acc.map (fun p => p.2.length)).sum + items.length
  | [], acc => by simp
  | it :: items, acc => by
    rw [List.foldl_cons, sum_foldl items _, sum_byCatStep]
    simp only [List.length_cons]
    omega

theorem keys_byCatStep :
    ∀ (acc : List (IngredientCategory × List GroceryListItem))
      (it : GroceryListItem),
    (byCatStep acc it).map Prod.fst =
      if it.category ∈ acc.map Prod.fst then acc.map Prod.fst
      else acc.map Prod.fst ++ [it.category]
  | [], it => by simp [byCatStep]
  | (k, b) :: rest, it => by
    rw [byCatStep]
    by_cases hk : k = it.category
    · rw [if_pos hk]
      simp [hk]
    · rw [if_neg hk]
      simp only [List.map_cons, keys_byCatStep rest it, List.mem_cons]
      by_cases hm : it.category ∈ rest.map Prod.fst
      · simp [hm, Ne.symm hk]
      · simp [hm, Ne.symm hk]

theorem keysNodup_foldl :
    ∀ (items : List GroceryListItem)
      (acc : List (IngredientCategory × List GroceryListItem)),
    (acc.map Prod.fst).Nodup →
    ((items.foldl byCatStep acc).map Prod.fst).Nodup
  | [], acc, h => h
  | it :: items, acc, h => by
    rw [List.foldl_cons]
    apply keysNodup_foldl items
    rw [keys_byCatStep]
    by_cases hm : it.category ∈ acc.map Prod.fst
    · rw [if_pos hm]
      exact h
    · rw [if_neg hm]
      refine List.Nodup.append h (List.nodup_singleton _) ?_
      intro a ha hb
      rw [List.mem_singleton] at hb
      subst hb
      exact hm ha

/-- C8: `by_category` partitions the stored items: each category's bucket
is exactly the in-order sublist of items of that category (so every item is
in exactly one bucket, none omitted or duplicated, and relative order is
preserved), the bucket sizes sum to `total_items`, and no category appears
twice. -/
theorem c8_by_category_partitions (gl : GroceryList) :
    (∀ c : IngredientCategory,
      bucketOf (GroceryList.by_category gl) c =
        gl.items.filter (fun it => decide (it.category = c))) ∧
      ((GroceryList.by_category gl).map (fun p => p.2.length)).sum =
        gl.total_items ∧
      ((GroceryList.by_category gl).map Prod.fst).Nodup := by
  refine ⟨fun c => ?_, ?_, ?_⟩
  · rw [GroceryList.by_category, bucketOf_foldl]
    rfl
  · rw [GroceryList.by_category, sum_foldl]
    simp [GroceryList.total_items]
  · exact keysNodup_foldl gl.items [] (by simp)

/-! ## C2: unmatched day -/

/-- C2 (amended): with a day matching no slot, `validate_meal_plan_nutrition`
returns zero totals without raising, the carbs check passes, but the protein
check *fails* (0 < 60), so the overall result `is_valid` is false — not
trivially valid as the claim states. -/
theorem c2_unmatched_day (plan : MealPlan)
    (recipes : String → Option Recipe) (day : String)
    (hday : ∀ s ∈ plan.slots, s.day ≠ day) :
    (validate_meal_plan_nutrition plan recipes day).protein_total = 0 ∧
      (validate_meal_plan_nutrition plan recipes day).carbs_total = 0 ∧
      (validate_meal_plan_nutrition plan recipes day).protein_valid =
        false ∧
      (validate_meal_plan_nutrition plan recipes day).carbs_valid = true ∧
      (validate_meal_plan_nutrition plan recipes day).high_carb_recipes =
        none ∧
      (validate_meal_plan_nutrition plan recipes day).is_valid = false := by
  have hfilter : plan.slots.filter (fun slot => slot.day == day) = [] := by
    rw [List.filter_eq_nil_iff]
    intro s hs
    simp [hday s hs]
  simp only [validate_meal_plan_nutrition, hfilter, nutriLoop,
    validate_daily_protein, validate_daily_carbs, DAILY_PROTEIN_MIN_G,
    DAILY_CARBS_MAX_G, NutritionValidationResult.is_valid, List.map_nil,
    List.sum_nil, List.isEmpty_nil, if_true]
  norm_num

/-! ## C10: high-carb recipe id per matching slot -/

theorem nutriLoop_snd_high (recipes : String → Option Recipe) (rid : String)
    (r : Recipe) (hr : recipes rid = some r) (m : Macros)
    (hm : r.macros = some m) (hhigh : is_high_carb_recipe r = true) :
    ∀ (ds : List MealSlot) (ms : List Macros) (hc : List String),
    (∀ s ∈ ds, s.recipe_id = rid) →
    (nutriLoop recipes ds ms hc).2 = hc ++ List.replicate ds.length r.id
  | [], ms, hc, _ => by simp [nutriLoop]
  | s :: ds, ms, hc, hu => by
    rw [nutriLoop, hu s (List.mem_cons_self _ _)]
    simp only [hr, hm, if_pos hhigh]
    rw [nutriLoop_snd_high recipes rid r hr m hm hhigh ds _ _
      (fun s hs => hu s (List.mem_cons_of_mem _ hs))]
    simp [List.replicate_succ]

theorem nutriLoop_snd_none (recipes : String → Option Recipe) :
    ∀ (ds : List MealSlot) (ms : List Macros) (hc : List String),
    (∀ s ∈ ds, ∀ r, recipes s.recipe_id = some r →
      is_high_carb_recipe r = false) →
    (nutriLoop recipes ds ms hc).2 = hc
  | [], ms, hc, _ => by simp [nutriLoop]
  | s :: ds, ms, hc, hu => by
    rw [nutriLoop]
    cases hrec : recipes s.recipe_id with
    | none =>
      simp only
      exact nutriLoop_snd_none recipes ds ms hc
        (fun s hs => hu s (List.mem_cons_of_mem _ hs))
    | some r =>
      cases hmac : r.macros with
      | none =>
        simp only [hmac]
        exact nutriLoop_snd_none recipes ds ms hc
          (fun s hs => hu s (List.mem_cons_of_mem _ hs))
      | some m =>
        simp only [hmac]
        have hf : is_high_carb_recipe r = false :=
          hu s (List.mem_cons_self _ _) r hrec
        rw [if_neg (bne_true hf)]
        exact nutriLoop_snd_none recipes ds _ hc
          (fun s hs => hu s (List.mem_cons_of_mem _ hs))

/-- C10: `high_carb_recipes` collects one id per matching slot, not per
distinct recipe: when all `K > 0` slots of the day reference the same
high-carb recipe, the field is `some` of `K` copies of its id; and when no
slot of the day resolves to a high-carb recipe with macros, the field is
`none` (absent), not an empty list. -/
theorem c10_high_carb_per_slot :
    (∀ (plan : MealPlan) (recipes : String → Option Recipe)
        (day rid : String) (r : Recipe) (m : Macros) (K : ℕ),
      (∀ s ∈ plan.slots, s.day = day → s.recipe_id = rid) →
      recipes rid = some r → r.macros = some m →
      HIGH_CARB_THRESHOLD_G < m.carbs_g →
      (plan.slots.filter (fun s => s.day == day)).length = K → 0 < K →
      (validate_meal_plan_nutrition plan recipes day).high_carb_recipes =
        some (List.replicate K r.id)) ∧
      ∀ (plan : MealPlan) (recipes : String → Option Recipe) (day : String),
      (∀ s ∈ plan.slots, s.day = day → ∀ r, recipes s.recipe_id = some r →
        ∀ m, r.macros = some m → ¬(HIGH_CARB_THRESHOLD_G < m.carbs_g)) →
      (validate_meal_plan_nutrition plan recipes day).high_carb_recipes =
        none := by
  constructor
  · intro plan recipes day rid r m K hu hr hm hcarb hK hK0
    have hhigh : is_high_carb_recipe r = true := by
      rw [is_high_carb_recipe, hm]
      exact decide_eq_true hcarb
    have hds : ∀ s ∈ plan.slots.filter (fun s => s.day == day),
        s.recipe_id = rid := by
      intro s hs
      have hmem := List.mem_filter.mp hs
      refine hu s hmem.1 ?_
      rw [← beq_iff_eq]
      exact hmem.2
    have hsnd := nutriLoop_snd_high recipes rid r hr m hm hhigh
      (plan.slots.filter fun s => s.day == day) [] [] hds
    rw [List.nil_append, hK] at hsnd
    simp only [validate_meal_plan_nutrition, hsnd]
    have hne : (List.replicate K r.id).isEmpty = false := by
      cases K with
      | zero => omega
      | succ n => simp [List.replicate_succ]
    rw [hne]
    simp
  · intro plan recipes day hu
    have hds : ∀ s ∈ plan.slots.filter (fun s => s.day == day), ∀ r,
        recipes s.recipe_id = some r → is_high_carb_recipe r = false := by
      intro s hs r hrec
      have hmem := List.mem_filter.mp hs
      rw [is_high_carb_recipe]
      cases hmac : r.macros with
      | none => rfl
      | some m =>
        have := hu s hmem.1 (by rw [← beq_iff_eq]; exact hmem.2) r hrec m hmac
        simp [this]
    have hsnd := nutriLoop_snd_none recipes
      (plan.slots.filter fun s => s.day == day) [] [] hds
    simp only [validate_meal_plan_nutrition, hsnd]
    simp

/-! ## Concrete inputs for witnesses and counterexamples -/

theorem mergeSort_pair {α : Type} (x y : α) (le : α → α → Bool) :
    List.mergeSort [x, y] le = if le x y then [x, y] else [y, x] := by
  simp [List.mergeSort, List.merge]

/-- Modelled from the spec: the canonical category sort key, ordering
produce (vegetables/legumes) first, then fruits, proteins, fresh/dairy,
grocery/pantry, beverages, frozen, and other last. -/
def specCanonicalKey : IngredientCategory → ℕ
  | .legumes => 0
  | .fruits => 1
  | .proteines => 2
  | .frais => 3
  | .epicerie => 4
  | .boissons => 5
  | .surgeles => 6
  | .autre => 7

/-- Modelled from the spec: the claim's sortedness predicate — ascending by
(canonical category key, lower-cased name). -/
def specSortedB : List GroceryListItem → Bool
  | [] => true
  | [_] => true
  | a :: b :: rest =>
    (decide (specCanonicalKey a.category < specCanonicalKey b.category) ||
      (decide (specCanonicalKey a.category = specCanonicalKey b.category) &&
        !strLt (pyLower b.ingredient_name).toList
          (pyLower a.ingredient_name).toList)) &&
      specSortedB (b :: rest)

def c3recipe : Recipe :=
  ⟨"r1", "Ratatouille", 1, 30,
   [⟨"Aubergine", 2, "piece", "legumes"⟩, ⟨"Miel", 1, "g", "divers"⟩],
   [], [], none, [], 3, true⟩

def c3plan : MealPlan := ⟨"2026-W06", [⟨"lundi", "diner", "r1", 1⟩], [], 0⟩

def c3recipes : String → Option Recipe :=
  fun id => if id = "r1" then some c3recipe else none

/-- C3 counterexample: on a plan producing one `legumes` item
("Aubergine") and one `autre` item ("Miel"), the code returns the `autre`
item first (sorting by the enum's string value, `"autre" < "legumes"`),
violating the claimed canonical produce-first order. -/
theorem c3_counterexample :
    specSortedB (itemsOf (aggregate_ingredients c3plan c3recipes true)) =
      false := by
  have hA : _is_pantry_staple "Aubergine" = false := by decide
  have hM : _is_pantry_staple "Miel" = false := by decide
  have hA' : _normalize_ingredient_name "Aubergine" = "aubergine" := by
    decide
  have hM' : _normalize_ingredient_name "Miel" = "miel" := by decide
  have hcA : _get_category "legumes" = IngredientCategory.legumes := by
    decide
  have hcM : _get_category "divers" = IngredientCategory.autre := by decide
  have hs1 : strLt "legumes".toList "autre".toList = false := by decide
  have hs2 : strLt "autre".toList "legumes".toList = true := by decide
  simp [aggregate_ingredients, aggLoop, c3plan, c3recipes, c3recipe,
    stepIngredient, insEntry, itemsOf, mergeSort_pair, itemSortKeyLe,
    specSortedB, specCanonicalKey, IngredientCategory.value, hA, hM, hA',
    hM', hcA, hcM, hs1, hs2]

def c5recipe : Recipe :=
  ⟨"r1", "Soupe", -1, 10, [⟨"tomate", 1, "g", "legumes"⟩],
   [], [], none, [], 3, true⟩

def c5plan : MealPlan := ⟨"2026-W06", [⟨"lundi", "lunch", "r1", 2⟩], [], 0⟩

def c5recipes : String → Option Recipe :=
  fun id => if id = "r1" then some c5recipe else none

/-- C5 counterexample: a slot resolving to a recipe with *negative*
servings (-1) and one ingredient does not raise — `aggregate_ingredients`
silently returns a grocery list (scaled by a negative multiplier), refuting
the claim for `servings ≤ 0`. -/
theorem c5_counterexample :
    c5recipes "r1" = some c5recipe ∧ c5recipe.servings ≤ 0 ∧
      c5recipe.ingredients ≠ [] ∧
      isOkB (aggregate_ingredients c5plan c5recipes true) = true := by
  have ht : _is_pantry_staple "tomate" = false := by decide
  refine ⟨rfl, by norm_num [c5recipe], by simp [c5recipe], ?_⟩
  simp [aggregate_ingredients, aggLoop, c5plan, c5recipes, c5recipe,
    stepIngredient, insEntry, itemsOf, isOkB, ht]

def c5wrecipe : Recipe :=
  ⟨"r2", "Sauce", 0, 5, [⟨"oignon", 1, "piece", "legumes"⟩],
   [], [], none, [], 3, true⟩

def c5wplan : MealPlan := ⟨"2026-W07", [⟨"mardi", "lunch", "r2", 1⟩], [], 0⟩

def c5wrecipes : String → Option Recipe :=
  fun id => if id = "r2" then some c5wrecipe else none

theorem c5_witness :
    isOkB (aggregate_ingredients c5wplan c5wrecipes true) = false :=
  c5_zero_servings_raises c5wplan c5wrecipes true
    ⟨"mardi", "lunch", "r2", 1⟩ c5wrecipe (List.mem_singleton.mpr rfl) rfl
    rfl (by simp [c5wrecipe])

def c2plan : MealPlan := ⟨"2026-W06", [⟨"lundi", "diner", "r1", 1⟩], [], 0⟩

def c2recipe : Recipe :=
  ⟨"r1", "Curry", 4, 25, [], [], [], some ⟨500, 30, 20, 10⟩, [], 3, true⟩

def c2recipes : String → Option Recipe :=
  fun id => if id = "r1" then some c2recipe else none

/-- C2 counterexample: with day "mardi" matching no slot, the totals are 0
as claimed but `is_valid` is `false` (the protein minimum fails at 0), not
`true` as the claim states. -/
theorem c2_counterexample :
    (∀ s ∈ c2plan.slots, s.day ≠ "mardi") ∧
      (validate_meal_plan_nutrition c2plan c2recipes "mardi").protein_total =
        0 ∧
      (validate_meal_plan_nutrition c2plan c2recipes "mardi").carbs_total =
        0 ∧
      (validate_meal_plan_nutrition c2plan c2recipes "mardi").is_valid =
        false := by
  refine ⟨by decide, ?_, ?_, ?_⟩ <;>
    · simp [validate_meal_plan_nutrition, c2plan, c2recipes, nutriLoop,
        validate_daily_protein, validate_daily_carbs,
        NutritionValidationResult.is_valid, DAILY_PROTEIN_MIN_G,
        DAILY_CARBS_MAX_G]

def c2wplan : MealPlan := ⟨"2026-W06", [⟨"lundi", "diner", "r1", 1⟩], [], 0⟩

def c2wrecipes : String → Option Recipe := fun _ => none

theorem c2_witness :
    (validate_meal_plan_nutrition c2wplan c2wrecipes "vendredi").is_valid =
        false ∧
      (validate_meal_plan_nutrition c2wplan c2wrecipes
        "vendredi").protein_total = 0 :=
  have h := c2_unmatched_day c2wplan c2wrecipes "vendredi" (by decide)
  ⟨h.2.2.2.2.2, h.1⟩

def c1wing : Ingredient := ⟨"Riz complet", 90, "g", "base"⟩

def c1wrecipe : Recipe :=
  ⟨"r1", "Curry", 2, 25, [c1wing], [], [], none, [], 3, true⟩

def c1wplan : MealPlan :=
  ⟨"2026-W06", [⟨"lundi", "lunch", "r1", 3⟩, ⟨"mardi", "lunch", "r1", 3⟩],
   [], 0⟩

def c1wrecipes : String → Option Recipe :=
  fun id => if id = "r1" then some c1wrecipe else none

theorem c1_witness :
    (itemsOf (aggregate_ingredients c1wplan c1wrecipes true)).countP
      (fun it => _normalize_ingredient_name it.ingredient_name ==
        _normalize_ingredient_name c1wing.name) = 1 :=
  (c1_uniform_plan_quantity c1wplan c1wrecipes "r1" c1wrecipe 3 2 c1wing
    (by decide) rfl (by decide) rfl (by decide)
    (List.mem_singleton.mpr rfl) (by decide) (by decide)).1

def c9wplan : MealPlan := ⟨"2026-W01", [], [], 0⟩

def c9wrecipes : String → Option Recipe := fun _ => none

theorem c9_witness :
    _is_pantry_staple " " = true ∧
      (itemsOf (aggregate_ingredients c9wplan c9wrecipes true)).countP
        (fun it => _normalize_ingredient_name it.ingredient_name == "") =
        0 :=
  ⟨c9_empty_name_is_staple_and_excluded.1 " " (by decide),
   c9_empty_name_is_staple_and_excluded.2 c9wplan c9wrecipes⟩

def c10plan : MealPlan :=
  ⟨"2026-W06", [⟨"lundi", "lunch", "r1", 1⟩, ⟨"lundi", "diner", "r1", 2⟩],
   [], 0⟩

def c10recipe : Recipe :=
  ⟨"r1", "Pasta", 4, 20, [], [], [], some ⟨700, 20, 60, 15⟩, [], 3, true⟩

def c10recipes : String → Option Recipe :=
  fun id => if id = "r1" then some c10recipe else none

def c10planB : MealPlan :=
  ⟨"2026-W06", [⟨"lundi", "lunch", "r2", 1⟩], [], 0⟩

def c10recipeB : Recipe :=
  ⟨"r2", "Salade", 2, 10, [], [], [], some ⟨300, 15, 40, 8⟩, [], 3, true⟩

def c10recipesB : String → Option Recipe := fun _ => some c10recipeB

theorem c10_witness :
    (validate_meal_plan_nutrition c10plan c10recipes "lundi").high_carb_recipes =
        some (List.replicate 2 c10recipe.id) ∧
      (validate_meal_plan_nutrition c10planB c10recipesB
        "lundi").high_carb_recipes = none := by
  constructor
  · exact c10_high_carb_per_slot.1 c10plan c10recipes "lundi" "r1"
      c10recipe ⟨700, 20, 60, 15⟩ 2 (by decide) rfl rfl
      (by norm_num [HIGH_CARB_THRESHOLD_G]) (by decide) (by decide)
  · refine c10_high_carb_per_slot.2 c10planB c10recipesB "lundi" ?_
    intro s hs hday r hrec m hm
    injection hrec with hr2
    subst hr2
    have hmm : (⟨300, 15, 40, 8⟩ : Macros) = m := by injection hm
    subst hmm
    norm_num [HIGH_CARB_THRESHOLD_G]

end Mealbot
